import Mathlib

/-!
Shallow embedding of the card-tree store, navigation classifier and layout
logic of the Explore_open repository, with theorems checking the
specification's claims about them.  JavaScript numbers are modelled as
rationals, the cached card depth as an integer, and fallible lookups as
Option values.
-/

/-- Message stored inside a card (cardStore CardMessage). -/
structure CardMessage where
  id : String
  role : String
  content : String
  files : Option (List String) := none
  context : Option String := none
  timestamp : Option Int := none
  deriving Repr, DecidableEq

/-- Conversation card (cardStore CardData). -/
structure CardData where
  id : String
  title : String
  messages : List CardMessage
  position : ℚ × ℚ × ℚ
  brightness : ℚ
  parentId : Option String
  children : List String
  depth : Int
  deriving Repr, DecidableEq

/-- JavaScript `x || 0` on a number: 0 maps to 0, everything else to itself. -/
def jsOrZero (x : Int) : Int := if x = 0 then 0 else x

/-- Truthiness of an optional JS string: undefined and the empty string are falsy. -/
def jsTruthy : Option String → Bool
  | some s => !(s == "")
  | none => false

/-- JavaScript `x || null` on an optional string. -/
def jsOrNull : Option String → Option String
  | some s => if s = "" then none else some s
  | none => none

/-- Depth-first walk over the parentId relation (the dfs inside
getDescendantIds): for each card whose parentId equals the given id, emit its
id and recurse.  The recursion depth is bounded by the fuel argument;
`getDescendantIds` supplies fuel equal to the card count, which covers every
forest-shaped card set (the source walks without a bound). -/
def descendantsFrom (cards : List CardData) : Nat → String → List String
  | 0, _ => []
  | Nat.succ fuel, cardId =>
    (cards.filter (fun c => decide (c.parentId = some cardId))).flatMap
      (fun child => child.id :: descendantsFrom cards fuel child.id)

/-- Full descendant id set of a card, in depth-first preorder (getDescendantIds). -/
def getDescendantIds (cards : List CardData) (id : String) : List String :=
  descendantsFrom cards cards.length id

/-- Keep-first filter by message id (deduplicateMessages, with its seen set
made explicit as an accumulator). -/
def dedupMessagesAux : List String → List CardMessage → List CardMessage
  | _, [] => []
  | seen, m :: rest =>
    if m.id ∈ seen then dedupMessagesAux seen rest
    else m :: dedupMessagesAux (m.id :: seen) rest

/-- deduplicateMessages: drop every message whose id already occurred earlier. -/
def deduplicateMessages (messages : List CardMessage) : List CardMessage :=
  dedupMessagesAux [] messages

/-- Keep-first filter by card id (the filter stage of deduplicateCards). -/
def dedupCardsAux : List String → List CardData → List CardData
  | _, [] => []
  | seen, c :: rest =>
    if c.id ∈ seen then dedupCardsAux seen rest
    else c :: dedupCardsAux (c.id :: seen) rest

/-- Per-card rewrite done by deduplicateCards before its filter stage: the
position is reset to [0, 100, 0] and the message list deduplicated (the
`children: card.children || []` part is the identity here since children is
always a list in the model). -/
def resetCard (c : CardData) : CardData :=
  { c with position := (0, 100, 0), messages := deduplicateMessages c.messages }

/-- deduplicateCards: rewrite every card with `resetCard`, then keep only the
first card carrying each id. -/
def deduplicateCards (cards : List CardData) : List CardData :=
  dedupCardsAux [] (cards.map resetCard)

/-- addCard of the card store.  The freshly generated id (a timestamp/random
string in the source) is passed in as `newId`; the result is the new card
list together with the new currentCardId. -/
def addCard (cards : List CardData) (messages : List CardMessage)
    (parentId : Option String) (newId : String) : List CardData × Option String :=
  let parentDepth : Int :=
    match parentId with
    | none => -1
    | some pid =>
      if pid = "" then -1
      else
        match cards.find? (fun c => decide (c.id = pid)) with
        | some p => jsOrZero p.depth
        | none => 0
  let newCard : CardData :=
    { id := newId, title := "新卡片", messages := messages,
      position := (0, 100, 0), brightness := 1, parentId := parentId,
      children := [], depth := parentDepth + 1 }
  let newCards := deduplicateCards (cards ++ [newCard])
  let newCards2 :=
    match parentId with
    | none => newCards
    | some pid =>
      if pid = "" then newCards
      else
        newCards.map (fun card =>
          if card.id = pid then { card with children := card.children ++ [newId] }
          else card)
  (newCards2, some newId)

/-- appendMessage of the card store: append the message to the addressed card
unless a message with the same id is already there, then run the whole list
through deduplicateCards. -/
def appendMessage (cards : List CardData) (cardId : String) (message : CardMessage) :
    List CardData :=
  deduplicateCards (cards.map (fun card =>
    if card.id ≠ cardId then card
    else if (card.messages.find? (fun m => decide (m.id = message.id))).isSome then card
    else { card with messages := deduplicateMessages (card.messages ++ [message]) }))

/-- Parent id recorded on the (first) card carrying the given id
(`cards.find(c => c.id === id)?.parentId`). -/
def parentOfCard (cards : List CardData) (id : String) : Option String :=
  (cards.find? (fun c => decide (c.id = id))).bind (fun c => c.parentId)

/-- Cards surviving a delete: those whose id is not the deleted id nor one of
its depth-first descendants (`cards.filter(card => !idsToDelete.includes(card.id))`). -/
def deleteSurvivors (cards : List CardData) (id : String) : List CardData :=
  cards.filter (fun c => !(decide (c.id ∈ id :: getDescendantIds cards id)))

/-- Children pruning applied during a delete: the card whose id equals the
deleted card's parent id has the deleted id filtered out of its children. -/
def pruneParent (parentOfDeleted : Option String) (id : String) (card : CardData) : CardData :=
  match parentOfDeleted with
  | some p =>
    if card.id = p then
      { card with children := card.children.filter (fun childId => decide (childId ≠ id)) }
    else card
  | none => card

/-- deleteCardAndDescendants of the card store: drop the card and its
depth-first descendants, prune the deleted id from its parent's children
list, and relocate the focus to the deleted card's parent when the focus was
inside the deleted set. -/
def deleteCardAndDescendants (cards : List CardData) (currentCardId : Option String)
    (id : String) : List CardData × Option String :=
  let idsToDelete := id :: getDescendantIds cards id
  let newCurrentId :=
    if (match currentCardId with
        | some cur => decide (cur ∈ idsToDelete)
        | none => false) = true then jsOrNull (parentOfCard cards id)
    else currentCardId
  ((deleteSurvivors cards id).map (pruneParent (parentOfCard cards id) id), newCurrentId)

/-- Decidable check of the spec's depth invariant: every card whose parentId
resolves to an existing card (by the store's find-by-id) has depth equal to
that parent's depth plus one, and every card without a parentId has depth 0.
Cards whose parentId resolves to nothing are unconstrained. -/
def depthInv (cards : List CardData) : Bool :=
  cards.all (fun c =>
    match c.parentId with
    | none => decide (c.depth = 0)
    | some pid =>
      match cards.find? (fun x => decide (x.id = pid)) with
      | some p => decide (c.depth = p.depth + 1)
      | none => true)

/-- Propositional form of the depth invariant, used inside proofs. -/
def DepthInvP (cards : List CardData) : Prop :=
  ∀ c ∈ cards,
    (c.parentId = none → c.depth = 0) ∧
    (∀ pid p, c.parentId = some pid →
      cards.find? (fun x => decide (x.id = pid)) = some p → c.depth = p.depth + 1)

/-- Strict-prefix test of the animation classifier in useAnimation: the
first path is strictly shorter and agrees with the second on card ids at
every index. -/
def isPfx (shortPath longPath : List CardData) : Bool :=
  decide (shortPath.length < longPath.length) &&
    (shortPath.zip longPath).all (fun p => p.1.id == p.2.id)

/-- Animation-type classification of useAnimation (the if chain run on a
focus change), given the pending navigation hint (delete or create or none)
and the old and new root-to-focus paths. -/
def classifyNavigation (hint : Option String) (oldPath newPath : List CardData) : String :=
  if hint = some "delete" then "DELETE_CARD"
  else if hint = some "create" then "CREATE_CHILD"
  else if isPfx oldPath newPath then "SWITCH_TO_CHILD"
  else if isPfx newPath oldPath then "SWITCH_TO_PARENT"
  else if oldPath.length > 0 ∧ newPath.length > 0 ∧
      oldPath.getLast?.bind (fun c => c.parentId) =
        newPath.getLast?.bind (fun c => c.parentId) then "SWITCH_SIBLING"
  else "SWITCH_UNRELATED"

/-- Strict prefix of id sequences, following the specification's wording: a
proper initial segment. -/
def SpecStrictPfx (p q : List String) : Prop :=
  p <+: q ∧ p.length < q.length

/-- Transform assigned to one card of the stacked path view. -/
structure CardTransform where
  x : ℚ
  y : ℚ
  scale : ℚ
  rotation : ℚ
  blur : ℚ
  brightness : ℚ
  opacity : ℚ
  deriving Repr, DecidableEq

/-- calculateCardPosition of the stacked path view, parameterised over the
value of pi and the cosine and sine implementations (JS Math.PI, Math.cos
and Math.sin compute on floating-point rationals); every other constant and
branch follows the source. -/
def calculateCardPosition (pi : ℚ) (cos sin : ℚ → ℚ) (depth : Int)
    (centerX centerY availableHeight : ℚ) : CardTransform :=
  if depth = 0 then
    { x := centerX, y := centerY, scale := 1, rotation := 0, blur := 0,
      brightness := 1, opacity := 1 }
  else if depth > 24 then
    { x := centerX, y := centerY + availableHeight, scale := 0, rotation := -90,
      blur := 20, brightness := 1/2, opacity := 0 }
  else if availableHeight ≤ centerY ∨ availableHeight < 100 then
    { x := centerX, y := centerY, scale := 0, rotation := 0, blur := 20,
      brightness := 1/2, opacity := 0 }
  else
    let angleStepDeg : ℚ := 5
    let scaleStep : ℚ := 4/100
    let blurStepPx : ℚ := 1/2
    let brightnessStep : ℚ := 5/100
    let chordLength := availableHeight / 2
    let radius := chordLength / 2
    let circleCenterY := centerY + radius
    let circleCenterX := centerX
    let startAngleRad := pi / 2
    let angleStepRad := angleStepDeg * pi / 180
    let cardAngleRad := startAngleRad + (depth : ℚ) * angleStepRad
    { x := circleCenterX + radius * cos cardAngleRad,
      y := circleCenterY - radius * sin cardAngleRad,
      scale := max 0 (1 - (depth : ℚ) * scaleStep),
      rotation := -angleStepDeg * (depth : ℚ),
      blur := (depth : ℚ) * blurStepPx,
      brightness := max (6/10) (1 - (depth : ℚ) * brightnessStep),
      opacity := 9/10 }

/-- State threaded through the layer-building pass of calculateTreeLayout:
the breadth layers filled so far and the JS cardToDepth map (an association
list with latest-write-wins lookup). -/
structure BuildSt where
  layers : List (List CardData)
  depths : List (String × Nat)

/-- Lookup in the JS Map built by `new Map(cards.map(c => [c.id, c]))`:
for duplicate ids the last entry wins. -/
def jsMapGet (cards : List CardData) (k : String) : Option CardData :=
  cards.foldl (fun acc c => if c.id = k then some c else acc) none

/-- cardToDepth.get. -/
def depthsGet (m : List (String × Nat)) (k : String) : Option Nat :=
  (m.find? (fun p => p.1 == k)).map (fun p => p.2)

/-- cardToDepth.set: overwrite the binding for the key. -/
def depthsSet (m : List (String × Nat)) (k : String) (v : Nat) : List (String × Nat) :=
  (k, v) :: m.filter (fun p => !(p.1 == k))

/-- JS `if (!layers[depth]) layers[depth] = []` — extend the layer array up
to the index with empty layers. -/
def ensureLayer (layers : List (List CardData)) (d : Nat) : List (List CardData) :=
  if d < layers.length then layers
  else layers ++ List.replicate (d + 1 - layers.length) []

/-- buildLayers of calculateTreeLayout: place the card in the layer at the
given depth unless it was already placed at a smaller-or-equal depth, then
recurse into its children one level deeper.  The source recursion carries no
bound; the fuel argument bounds its depth and is chosen large enough by the
caller for every forest-shaped card set. -/
def buildLayersGo (cards : List CardData) : Nat → String → Nat → BuildSt → BuildSt
  | 0, _, _, st => st
  | Nat.succ fuel, cardId, depth, st =>
    if (match depthsGet st.depths cardId with
        | some d0 => decide (d0 ≤ depth)
        | none => false) = true then st
    else
      match jsMapGet cards cardId with
      | none => st
      | some card =>
        let layers1 := ensureLayer st.layers depth
        let cur := layers1.getD depth []
        let layers2 :=
          if cur.any (fun c => c.id == cardId) then layers1
          else layers1.set depth (cur ++ [card])
        let st2 : BuildSt := ⟨layers2, depthsSet st.depths cardId depth⟩
        card.children.foldl
          (fun acc childId => buildLayersGo cards fuel childId (depth + 1) acc) st2

/-- The while loop of the second pass: climb parent links to the topmost
resolvable ancestor (empty-string parent ids are falsy in JS). -/
def climbRoot (cards : List CardData) : Nat → CardData → CardData
  | 0, c => c
  | Nat.succ fuel, c =>
    match c.parentId with
    | none => c
    | some pid =>
      if pid = "" then c
      else
        match jsMapGet cards pid with
        | none => c
        | some p => climbRoot cards fuel p

/-- Both layering passes of calculateTreeLayout: build layers from every
root (card with falsy parentId), then from the resolvable top ancestor of
every card not yet layered. -/
def buildAllLayers (fuel : Nat) (cards : List CardData) : BuildSt :=
  let st1 := (cards.filter (fun c => !(jsTruthy c.parentId))).foldl
      (fun st c => buildLayersGo cards fuel c.id 0 st) ⟨[], []⟩
  cards.foldl
    (fun st c =>
      if (depthsGet st.depths c.id).isSome then st
      else buildLayersGo cards fuel (climbRoot cards fuel c).id 0 st) st1

/-- Output of the vertical minimap layout: the sequence of position writes
(the JS positions.set calls in order) plus the canvas metrics. -/
structure TreeLayout where
  positionWrites : List (String × ℚ × ℚ)
  svgWidth : ℚ
  svgHeight : ℚ
  layerHeight : ℚ

/-- calculateTreeLayout (vertical minimap layout): breadth layers from the
building passes, spacing unit sized so 7 nodes span the container width,
each layer centred, successive layers 80 pixels apart, canvas padded
vertically by the viewport height. -/
def calculateTreeLayout (fuel : Nat) (cards : List CardData)
    (viewportHeight containerWidth : ℚ) : TreeLayout :=
  let layers := (buildAllLayers fuel cards).layers
  let layerHeight : ℚ := 80
  let horizontalPadding : ℚ := 40
  let nodesForSpacingCalculation : ℚ := 7
  let effectiveContainerWidth := if containerWidth > 0 then containerWidth else 300
  let horizontalSpacing :=
    (effectiveContainerWidth - horizontalPadding * 2) / (nodesForSpacingCalculation - 1)
  let maxLayerContentWidth := layers.foldl
      (fun m layer =>
        if layer.length > 1 then max m (((layer.length : ℚ) - 1) * horizontalSpacing)
        else m) 0
  let svgWidth := max effectiveContainerWidth (maxLayerContentWidth + horizontalPadding * 2)
  let verticalPadding := viewportHeight
  let contentHeight : ℚ :=
    if layers.length > 0 then ((layers.length : ℚ) - 1) * layerHeight else 0
  let svgHeight := contentHeight + verticalPadding * 2
  let positionWrites := (layers.enum).foldl
      (fun acc p =>
        if p.2.length = 0 then acc
        else
          acc ++ p.2.enum.map (fun q =>
            (q.2.id,
              (svgWidth - ((p.2.length : ℚ) - 1) * horizontalSpacing) / 2 +
                (q.1 : ℚ) * horizontalSpacing,
              svgHeight - ((p.1 : ℚ) * layerHeight + verticalPadding))))
      []
  ⟨positionWrites, svgWidth, svgHeight, layerHeight⟩

/-- JS Math.max on two rationals, kept executable. -/
def jsMax (a b : ℚ) : ℚ := if a ≤ b then b else a

/-- State of the minimap scroll controller (TreeNavigation): the
isAutoScrolling ref, the pending 3-second idle timeout (its scheduled firing
time; none when no timeout is pending), the pending 500 ms timeout that
resets the flag, the scroll offset, the current focus node's layout position
(none when there is no focus or it has no position), and a log of the
auto-center scroll writes, recording for each write whether the 3-second
manual-scroll timeout was pending at that moment. -/
structure ScrollSt where
  isAutoScrolling : Bool
  pending3 : Option Nat
  autoEnd : Option Nat
  scrollTop : ℚ
  focusPos : Option ℚ
  writeLog : List (Nat × Bool)
  deriving Repr, DecidableEq

/-- autoCenterView: when the focus resolves to a position, set the
auto-scroll flag, schedule its reset 500 ms later, write the centering
scroll target (clamped at 0) and log the write. -/
def autoCenterView (containerHeight : ℚ) (t : Nat) (s : ScrollSt) : ScrollSt :=
  match s.focusPos with
  | none => s
  | some y =>
    { s with
      isAutoScrolling := true,
      autoEnd := some (t + 500),
      scrollTop := jsMax 0 (y - containerHeight / 2),
      writeLog := s.writeLog ++ [(t, s.pending3.isSome)] }

/-- Events the controller reacts to: a scroll event on the container, a
focus change (the useEffect on currentCardId), the 3-second idle timeout
firing, and the 500 ms flag-reset timeout firing.  A timer event whose time
does not match the pending schedule models a cleared or superseded timeout
and is a no-op. -/
inductive ScrollEvent where
  | scrollEvt (t : Nat)
  | focusChange (t : Nat) (pos : Option ℚ)
  | idleFire (t : Nat)
  | autoEndFire (t : Nat)
  deriving Repr, DecidableEq

/-- One step of the controller: handleScroll ignores events while
isAutoScrolling and otherwise replaces the pending idle timeout with one
3000 ms later; a focus change calls autoCenterView immediately; the idle
timeout fires autoCenterView after clearing itself; the 500 ms timeout
clears the flag. -/
def scrollStep (containerHeight : ℚ) (s : ScrollSt) : ScrollEvent → ScrollSt
  | ScrollEvent.scrollEvt t =>
    if s.isAutoScrolling then s
    else { s with pending3 := some (t + 3000) }
  | ScrollEvent.focusChange t pos =>
    autoCenterView containerHeight t { s with focusPos := pos }
  | ScrollEvent.idleFire t =>
    if s.pending3 = some t then
      autoCenterView containerHeight t { s with pending3 := none }
    else s
  | ScrollEvent.autoEndFire t =>
    if s.autoEnd = some t then { s with isAutoScrolling := false, autoEnd := none }
    else s

/-- Run the controller over a sequence of events in time order. -/
def scrollRun (containerHeight : ℚ) (s : ScrollSt) (events : List ScrollEvent) : ScrollSt :=
  events.foldl (scrollStep containerHeight) s

/-- Initial controller state. -/
def scrollInit : ScrollSt :=
  { isAutoScrolling := false, pending3 := none, autoEnd := none, scrollTop := 0,
    focusPos := none, writeLog := [] }

section Fixtures

/-- Card A: root with child b. -/
def cardA : CardData :=
  { id := "a", title := "A", messages := [], position := (0, 100, 0),
    brightness := 1, parentId := none, children := ["b"], depth := 0 }

/-- Card B: child of a, with child c. -/
def cardB : CardData :=
  { id := "b", title := "B", messages := [], position := (0, 100, 0),
    brightness := 1, parentId := some "a", children := ["c"], depth := 1 }

/-- Card C: child of b. -/
def cardC : CardData :=
  { id := "c", title := "C", messages := [], position := (0, 100, 0),
    brightness := 1, parentId := some "b", children := [], depth := 2 }

/-- A sample user message. -/
def msgM : CardMessage :=
  { id := "m1", role := "user", content := "hi" }

/-- Card whose message list already contains a duplicated message id. -/
def cardDup : CardData :=
  { id := "d", title := "D", messages := [msgM, msgM], position := (0, 100, 0),
    brightness := 1, parentId := none, children := [], depth := 0 }

/-- Card with a single, duplicate-free message list. -/
def cardE : CardData :=
  { id := "e", title := "E", messages := [msgM], position := (0, 100, 0),
    brightness := 1, parentId := none, children := [], depth := 0 }

/-- Controller state with a pending 3-second idle timeout, a focus at
position 800 and no auto-scroll in flight. -/
def sPending : ScrollSt :=
  { isAutoScrolling := false, pending3 := some 3000, autoEnd := none, scrollTop := 0,
    focusPos := some 800, writeLog := [] }

end Fixtures

section HelperLemmas

/-- pruneParent never changes the id of a card. -/
theorem pruneParent_id (pd : Option String) (X : String) (c : CardData) :
    (pruneParent pd X c).id = c.id := by
  cases pd with
  | none => rfl
  | some p => by_cases h : c.id = p <;> simp [pruneParent, h]

/-- pruneParent either leaves the card alone or filters X from its children. -/
theorem pruneParent_cases (pd : Option String) (X : String) (c : CardData) :
    pruneParent pd X c = c ∨
      pruneParent pd X c =
        { c with children := c.children.filter (fun childId => decide (childId ≠ X)) } := by
  cases pd with
  | none => exact Or.inl rfl
  | some p =>
    by_cases h : c.id = p
    · exact Or.inr (by simp [pruneParent, h])
    · exact Or.inl (by simp [pruneParent, h])

/-- Membership in the survivor list of a delete. -/
theorem mem_deleteSurvivors (cards : List CardData) (X : String) (c : CardData) :
    c ∈ deleteSurvivors cards X ↔
      c ∈ cards ∧ ¬(c.id = X ∨ c.id ∈ getDescendantIds cards X) := by
  simp [deleteSurvivors, List.mem_filter]

/-- Everything emitted by the keep-first card dedup comes from the input list. -/
theorem mem_of_mem_dedupCardsAux (seen : List String) (l : List CardData) (c : CardData)
    (hc : c ∈ dedupCardsAux seen l) : c ∈ l := by
  induction l generalizing seen with
  | nil => simp [dedupCardsAux] at hc
  | cons x rest ih =>
    by_cases hx : x.id ∈ seen
    · simp only [dedupCardsAux, if_pos hx] at hc
      exact List.mem_cons_of_mem _ (ih _ hc)
    · simp only [dedupCardsAux, if_neg hx] at hc
      rcases List.mem_cons.mp hc with h | h
      · exact h ▸ List.mem_cons_self _ _
      · exact List.mem_cons_of_mem _ (ih _ h)

/-- Keep-first dedup never changes which card an id-directed find? returns,
as long as the id is not on the seen list. -/
theorem find?_dedupCardsAux (seen : List String) (l : List CardData) (k : String)
    (hk : k ∉ seen) :
    (dedupCardsAux seen l).find? (fun c => decide (c.id = k)) =
      l.find? (fun c => decide (c.id = k)) := by
  induction l generalizing seen with
  | nil => rfl
  | cons x rest ih =>
    by_cases hxk : x.id = k
    · have hx : x.id ∉ seen := fun h => hk (hxk ▸ h)
      simp only [dedupCardsAux, if_neg hx]
      rw [List.find?_cons_of_pos _ (by simpa using hxk),
        List.find?_cons_of_pos _ (by simpa using hxk)]
    · by_cases hx : x.id ∈ seen
      · simp only [dedupCardsAux, if_pos hx]
        rw [ih seen hk, List.find?_cons_of_neg _ (by simpa using hxk)]
      · simp only [dedupCardsAux, if_neg hx]
        have hk2 : k ∉ x.id :: seen := by
          intro h
          rcases List.mem_cons.mp h with h | h
          · exact hxk h.symm
          · exact hk h
        rw [List.find?_cons_of_neg _ (by simpa using hxk),
          List.find?_cons_of_neg _ (by simpa using hxk), ih _ hk2]

/-- Appending a card with a globally fresh id commutes with keep-first dedup. -/
theorem dedupCardsAux_append_fresh (seen : List String) (l : List CardData) (x : CardData)
    (hx1 : x.id ∉ seen) (hx2 : ∀ c ∈ l, c.id ≠ x.id) :
    dedupCardsAux seen (l ++ [x]) = dedupCardsAux seen l ++ [x] := by
  induction l generalizing seen with
  | nil => simp [dedupCardsAux, hx1]
  | cons c rest ih =>
    by_cases hc : c.id ∈ seen
    · simp only [List.cons_append, dedupCardsAux, if_pos hc]
      exact ih seen hx1 (fun d hd => hx2 d (List.mem_cons_of_mem _ hd))
    · simp only [List.cons_append, dedupCardsAux, if_neg hc]
      have hx1' : x.id ∉ c.id :: seen := by
        intro h
        rcases List.mem_cons.mp h with h | h
        · exact hx2 c (List.mem_cons_self _ _) h.symm
        · exact hx1 h
      simp only [List.append_eq]
      rw [ih (c.id :: seen) hx1' (fun d hd => hx2 d (List.mem_cons_of_mem _ hd))]

/-- Message dedup is the identity on a list whose message ids are already
pairwise distinct and avoid the seen set. -/
theorem dedupMessagesAux_eq_self (seen : List String) (l : List CardMessage)
    (h1 : ∀ m ∈ l, m.id ∉ seen) (h2 : (l.map (fun m => m.id)).Nodup) :
    dedupMessagesAux seen l = l := by
  induction l generalizing seen with
  | nil => rfl
  | cons m rest ih =>
    have hm : m.id ∉ seen := h1 m (List.mem_cons_self _ _)
    simp only [dedupMessagesAux, if_neg hm]
    congr 1
    refine ih _ ?_ (List.nodup_cons.mp h2).2
    intro x hx hmem
    rcases List.mem_cons.mp hmem with h | h
    · have hx2 : x.id ∈ rest.map (fun m => m.id) := List.mem_map_of_mem _ hx
      rw [h] at hx2
      exact (List.nodup_cons.mp h2).1 hx2
    · exact h1 x (List.mem_cons_of_mem _ hx) h

/-- deduplicateMessages is the identity on duplicate-free message lists. -/
theorem deduplicateMessages_eq_self (l : List CardMessage)
    (h : (l.map (fun m => m.id)).Nodup) : deduplicateMessages l = l :=
  dedupMessagesAux_eq_self [] l (by simp) h

/-- deduplicateCards distributes over appending one card with a fresh id. -/
theorem deduplicateCards_append_fresh (cards : List CardData) (nc : CardData)
    (hfresh : ∀ c ∈ cards, c.id ≠ nc.id) :
    deduplicateCards (cards ++ [nc]) = deduplicateCards cards ++ [resetCard nc] := by
  simp only [deduplicateCards, List.map_append, List.map_cons, List.map_nil]
  rw [dedupCardsAux_append_fresh]
  · simp
  · intro c hc
    obtain ⟨c₀, hc₀, rfl⟩ := List.mem_map.mp hc
    exact hfresh c₀ hc₀

/-- An id-directed find? finds a given member when the card ids are distinct. -/
theorem find?_eq_some_of_nodup (l : List CardData) (x : CardData) (k : String)
    (hnodup : (l.map (fun c => c.id)).Nodup) (hx : x ∈ l) (hid : x.id = k) :
    l.find? (fun c => decide (c.id = k)) = some x := by
  induction l with
  | nil => cases hx
  | cons c rest ih =>
    rcases List.mem_cons.mp hx with h | h
    · subst h
      exact List.find?_cons_of_pos _ (by simpa using hid)
    · have hcne : ¬(c.id = k) := by
        intro he
        have hmem : x.id ∈ rest.map (fun c => c.id) := List.mem_map_of_mem _ h
        rw [hid, ← he] at hmem
        exact (List.nodup_cons.mp hnodup).1 hmem
      rw [List.find?_cons_of_neg _ (by simpa using hcne)]
      exact ih (List.nodup_cons.mp hnodup).2 h

/-- jsOrZero is the identity on integers. -/
theorem jsOrZero_eq (x : Int) : jsOrZero x = x := by
  by_cases h : x = 0 <;> simp [jsOrZero, h]

/-- pruneParent never changes the parentId of a card. -/
theorem pruneParent_parentId (pd : Option String) (X : String) (c : CardData) :
    (pruneParent pd X c).parentId = c.parentId := by
  cases pd with
  | none => rfl
  | some p => by_cases h : c.id = p <;> simp [pruneParent, h]

/-- pruneParent never changes the depth of a card. -/
theorem pruneParent_depth (pd : Option String) (X : String) (c : CardData) :
    (pruneParent pd X c).depth = c.depth := by
  cases pd with
  | none => rfl
  | some p => by_cases h : c.id = p <;> simp [pruneParent, h]

/-- An id-directed find? commutes with mapping an id-preserving function. -/
theorem find?_map_id_preserving (l : List CardData) (f : CardData → CardData) (k : String)
    (hf : ∀ c, (f c).id = c.id) :
    (l.map f).find? (fun c => decide (c.id = k)) =
      (l.find? (fun c => decide (c.id = k))).map f := by
  rw [List.find?_map]
  have hfun : ((fun c : CardData => decide (c.id = k)) ∘ f) =
      (fun c : CardData => decide (c.id = k)) := by
    funext c
    simp [hf]
  rw [hfun]

/-- The Bool depth-invariant check agrees with its propositional form. -/
theorem depthInv_iff (cards : List CardData) :
    depthInv cards = true ↔ DepthInvP cards := by
  rw [depthInv, List.all_eq_true, DepthInvP]
  constructor
  · intro h c hc
    have hcb := h c hc
    constructor
    · intro hn
      rw [hn] at hcb
      simpa using hcb
    · intro pid p hp hfind
      rw [hp] at hcb
      simp [hfind] at hcb
      exact hcb
  · intro h c hc
    rcases hp : c.parentId with _ | pid
    · simpa using (h c hc).1 hp
    · rcases hfind : cards.find? (fun x => decide (x.id = pid)) with _ | p
      · simp [hp, hfind]
      · simpa [hp, hfind] using (h c hc).2 pid p hp hfind

/-- The depth invariant survives the deduplicateCards rewrite followed by any
map that preserves id, parentId and depth. -/
theorem depthInvP_dedup_map (l : List CardData) (f : CardData → CardData)
    (hid : ∀ c, (f c).id = c.id) (hpar : ∀ c, (f c).parentId = c.parentId)
    (hdep : ∀ c, (f c).depth = c.depth)
    (h : DepthInvP l) :
    DepthInvP ((dedupCardsAux [] (l.map resetCard)).map f) := by
  intro c hc
  obtain ⟨c₁, hc₁, rfl⟩ := List.mem_map.mp hc
  obtain ⟨c₀, hc₀, rfl⟩ := List.mem_map.mp (mem_of_mem_dedupCardsAux _ _ _ hc₁)
  constructor
  · intro hnone
    rw [hpar] at hnone
    rw [hdep]
    exact (h c₀ hc₀).1 hnone
  · intro pid p hp hfindp
    rw [hpar] at hp
    rw [find?_map_id_preserving _ f pid hid,
      find?_dedupCardsAux [] _ pid (by simp),
      find?_map_id_preserving _ resetCard pid (fun c => rfl)] at hfindp
    cases hl : l.find? (fun x => decide (x.id = pid)) with
    | none =>
      rw [hl] at hfindp
      cases hfindp
    | some q =>
      rw [hl] at hfindp
      have hpq : p = f (resetCard q) := (Option.some.inj hfindp).symm
      have hq : c₀.depth = q.depth + 1 := (h c₀ hc₀).2 pid q hp hl
      have e1 : (f (resetCard c₀)).depth = c₀.depth := hdep (resetCard c₀)
      have e2 : (f (resetCard q)).depth = q.depth := hdep (resetCard q)
      rw [e1, hpq, e2]
      exact hq

/-- The depth invariant survives filtering followed by any map that preserves
id, parentId and depth, provided card ids are pairwise distinct. -/
theorem depthInvP_filter_map (cards : List CardData) (f : CardData → CardData)
    (q : CardData → Bool)
    (hid : ∀ c, (f c).id = c.id) (hpar : ∀ c, (f c).parentId = c.parentId)
    (hdep : ∀ c, (f c).depth = c.depth)
    (hnodup : (cards.map (fun c => c.id)).Nodup)
    (h : DepthInvP cards) :
    DepthInvP ((cards.filter q).map f) := by
  intro c hc
  obtain ⟨c₀, hc₀f, rfl⟩ := List.mem_map.mp hc
  have hc₀ : c₀ ∈ cards := List.mem_of_mem_filter hc₀f
  constructor
  · intro hnone
    rw [hpar] at hnone
    rw [hdep]
    exact (h c₀ hc₀).1 hnone
  · intro pid p hp hfindp
    rw [hpar] at hp
    rw [find?_map_id_preserving _ f pid hid] at hfindp
    cases hl : (cards.filter q).find? (fun x => decide (x.id = pid)) with
    | none =>
      rw [hl] at hfindp
      cases hfindp
    | some r =>
      rw [hl] at hfindp
      have hpr : p = f r := (Option.some.inj hfindp).symm
      have hrmem : r ∈ cards := List.mem_of_mem_filter (List.mem_of_find?_eq_some hl)
      have hrid : r.id = pid := by simpa using List.find?_some hl
      have hfc : cards.find? (fun x => decide (x.id = pid)) = some r :=
        find?_eq_some_of_nodup cards r pid hnodup hrmem hrid
      have e1 : (f c₀).depth = c₀.depth := hdep c₀
      have e2 : (f r).depth = r.depth := hdep r
      rw [e1, hpr, e2]
      exact (h c₀ hc₀).2 pid r hp hfc

/-- Extending an invariant-satisfying card list with one card whose id no
existing card references as parent preserves the invariant, provided the new
card itself satisfies its own depth constraint on the extended list. -/
theorem depthInvP_append_new (cards : List CardData) (nc : CardData)
    (h : DepthInvP cards)
    (hfresh : ∀ c ∈ cards, c.parentId ≠ some nc.id)
    (hnc : (nc.parentId = none → nc.depth = 0) ∧
        (∀ pid p, nc.parentId = some pid →
          (cards ++ [nc]).find? (fun x => decide (x.id = pid)) = some p →
          nc.depth = p.depth + 1)) :
    DepthInvP (cards ++ [nc]) := by
  intro c hc
  rcases List.mem_append.mp hc with hcc | hcn
  · refine ⟨(h c hcc).1, ?_⟩
    intro pid p hp hfindp
    rw [List.find?_append] at hfindp
    cases hl : cards.find? (fun x => decide (x.id = pid)) with
    | some q =>
      rw [hl] at hfindp
      have : q = p := by simpa using hfindp
      exact this ▸ (h c hcc).2 pid q hp hl
    | none =>
      rw [hl] at hfindp
      have hpid : ¬(nc.id = pid) := by
        intro he
        exact hfresh c hcc (he ▸ hp)
      have hnone : ([nc].find? (fun x => decide (x.id = pid))) = none := by
        simp [List.find?, hpid]
      rw [hnone] at hfindp
      cases hfindp
  · have hcn2 : c = nc := by simpa using hcn
    subst hcn2
    exact hnc

end HelperLemmas

section Claim1

/-- C1: for a card id X present in the card set, deleteCardAndDescendants
removes exactly X together with the descendant set computed by the
depth-first walk of the parentId relation; every card outside that set is
still present and unchanged, except that X's parent has X pruned from its
children list; and nothing not stemming from a surviving card appears in the
result. -/
theorem deleteCard_removes_exactly_subtree
    (cards : List CardData) (cur : Option String) (X : String)
    (_hX : (cards.find? (fun c => decide (c.id = X))).isSome = true) :
    (∀ c ∈ (deleteCardAndDescendants cards cur X).1,
        ¬(c.id = X ∨ c.id ∈ getDescendantIds cards X)) ∧
    (∀ c ∈ cards, ¬(c.id = X ∨ c.id ∈ getDescendantIds cards X) →
      if parentOfCard cards X = some c.id then
        { c with children := c.children.filter (fun childId => decide (childId ≠ X)) } ∈
          (deleteCardAndDescendants cards cur X).1
      else c ∈ (deleteCardAndDescendants cards cur X).1) ∧
    (∀ c ∈ (deleteCardAndDescendants cards cur X).1, ∃ c₀, c₀ ∈ cards ∧ c.id = c₀.id ∧
      (c = c₀ ∨
        c = { c₀ with children := c₀.children.filter (fun childId => decide (childId ≠ X)) })) := by
  refine ⟨?_, ?_, ?_⟩
  · intro c hc
    obtain ⟨c₀, hc₀, rfl⟩ := List.mem_map.mp hc
    have h := (mem_deleteSurvivors cards X c₀).mp hc₀
    rw [pruneParent_id]
    exact h.2
  · intro c hc hnot
    by_cases hpd : parentOfCard cards X = some c.id
    · rw [if_pos hpd]
      refine List.mem_map.mpr ⟨c, (mem_deleteSurvivors cards X c).mpr ⟨hc, hnot⟩, ?_⟩
      simp [pruneParent, hpd]
    · rw [if_neg hpd]
      refine List.mem_map.mpr ⟨c, (mem_deleteSurvivors cards X c).mpr ⟨hc, hnot⟩, ?_⟩
      cases hpdv : parentOfCard cards X with
      | none => rfl
      | some p =>
        have hne : ¬(c.id = p) := by
          intro he
          exact hpd (by rw [hpdv, he])
        simp [pruneParent, hne]
  · intro c hc
    obtain ⟨c₀, hc₀, rfl⟩ := List.mem_map.mp hc
    have h := (mem_deleteSurvivors cards X c₀).mp hc₀
    exact ⟨c₀, h.1, pruneParent_id _ _ _, pruneParent_cases _ _ _⟩

/-- Witness for C1 at a concrete three-card chain a → b → c, deleting b. -/
theorem deleteCard_removes_exactly_subtree_witness :
    (([cardA, cardB, cardC].find? (fun c => decide (c.id = "b"))).isSome = true) ∧
    (∀ c ∈ (deleteCardAndDescendants [cardA, cardB, cardC] (some "c") "b").1,
        ¬(c.id = "b" ∨ c.id ∈ getDescendantIds [cardA, cardB, cardC] "b")) :=
  ⟨by decide,
    (deleteCard_removes_exactly_subtree [cardA, cardB, cardC] (some "c") "b" (by decide)).1⟩

end Claim1

section Claim2

/-- C2: when the focus lies inside the deleted subtree (X itself or one of
its depth-first descendants) the focus moves to X's parent id, which is none
when X is a root; when the focus lies outside the deleted subtree, or there
is no focus, it is unchanged. -/
theorem deleteCard_focus_relocation
    (cards : List CardData) (cur : Option String) (X : String) (cx : CardData)
    (hfind : cards.find? (fun c => decide (c.id = X)) = some cx)
    (hpe : cx.parentId ≠ some "") :
    (∀ f, cur = some f → f ∈ X :: getDescendantIds cards X →
        (deleteCardAndDescendants cards cur X).2 = cx.parentId) ∧
    (∀ f, cur = some f → f ∉ X :: getDescendantIds cards X →
        (deleteCardAndDescendants cards cur X).2 = some f) ∧
    (cur = none → (deleteCardAndDescendants cards cur X).2 = none) := by
  have hpar : parentOfCard cards X = cx.parentId := by
    simp [parentOfCard, hfind]
  refine ⟨?_, ?_, ?_⟩
  · intro f hf hin
    subst hf
    simp only [deleteCardAndDescendants]
    rw [if_pos (by simpa using hin), hpar]
    cases hcp : cx.parentId with
    | none => rfl
    | some p =>
      have : p ≠ "" := by
        intro he
        exact hpe (by rw [hcp, he])
      simp [jsOrNull, this]
  · intro f hf hout
    subst hf
    simp only [deleteCardAndDescendants]
    rw [if_neg (by simpa using hout)]
  · intro h
    subst h
    simp [deleteCardAndDescendants]

/-- Witness for C2: deleting b in the chain a → b → c while the focus is on
the grandchild c relocates the focus to a; cases of an untouched focus are
exercised at the same input. -/
theorem deleteCard_focus_relocation_witness :
    ([cardA, cardB, cardC].find? (fun c => decide (c.id = "b")) = some cardB) ∧
    cardB.parentId ≠ some "" ∧
    (∀ f, (some "c" : Option String) = some f → f ∈ "b" :: getDescendantIds [cardA, cardB, cardC] "b" →
        (deleteCardAndDescendants [cardA, cardB, cardC] (some "c") "b").2 = cardB.parentId) :=
  ⟨by decide, by decide,
    (deleteCard_focus_relocation [cardA, cardB, cardC] (some "c") "b" cardB
      (by decide) (by decide)).1⟩

end Claim2

section Claim4

/-- C4 counterexample: calling addCard with a parentId ("zzz") that resolves
to no card is not a no-op — the card list grows from one card to two, a card
with the fresh id and the dangling parentId appears at depth 1, and the
focus is written to the fresh id. -/
theorem addCard_unresolved_parent_cex :
    ((addCard [cardA] [] (some "zzz") "new1").1.length = 2) ∧
    ((addCard [cardA] [] (some "zzz") "new1").2 = some "new1") ∧
    (∃ c ∈ (addCard [cardA] [] (some "zzz") "new1").1,
      c.id = "new1" ∧ c.parentId = some "zzz" ∧ c.depth = 1) := by
  decide

/-- C4 amended: when the supplied parentId is non-empty but resolves to no
existing card, addCard still appends a new card carrying the dangling
parentId at depth 1 (with the rest of the list rewritten by
deduplicateCards and no children list touched) and moves the focus to the
new card — it is not a no-op. -/
theorem addCard_unresolved_parent_not_noop
    (cards : List CardData) (messages : List CardMessage) (pid newId : String)
    (hpid : pid ≠ "")
    (hres : cards.find? (fun c => decide (c.id = pid)) = none)
    (hfresh : ∀ c ∈ cards, c.id ≠ newId)
    (hne : newId ≠ pid) :
    (addCard cards messages (some pid) newId).2 = some newId ∧
    (addCard cards messages (some pid) newId).1 =
      deduplicateCards cards ++
        [{ id := newId, title := "新卡片", messages := deduplicateMessages messages,
           position := (0, 100, 0), brightness := 1, parentId := some pid,
           children := [], depth := 1 }] := by
  refine ⟨rfl, ?_⟩
  simp only [addCard, hres, if_neg hpid]
  have h01 : (0 : Int) + 1 = 1 := by norm_num
  rw [h01]
  rw [deduplicateCards_append_fresh cards _ (fun c hc => hfresh c hc)]
  rw [List.map_append]
  congr 1
  · conv_rhs => rw [← List.map_id (deduplicateCards cards)]
    apply List.map_congr_left
    intro a ha
    obtain ⟨c₀, hc₀, rfl⟩ := List.mem_map.mp (mem_of_mem_dedupCardsAux _ _ _ ha)
    have hna : ¬((resetCard c₀).id = pid) := by
      have hall := List.find?_eq_none.mp hres c₀ hc₀
      simpa [resetCard] using hall
    simp only [id_eq, if_neg hna]
  · simp [resetCard, hne]

/-- Witness for the amended C4 at a concrete one-card state. -/
theorem addCard_unresolved_parent_not_noop_witness :
    ("zzz" ≠ "") ∧ ([cardA].find? (fun c => decide (c.id = "zzz")) = none) ∧
    (addCard [cardA] [] (some "zzz") "new1").2 = some "new1" :=
  ⟨by decide, by decide,
    (addCard_unresolved_parent_not_noop [cardA] [] "zzz" "new1" (by decide) (by decide)
      (by decide) (by decide)).1⟩

end Claim4

section Claim5

/-- C5 counterexample: on a card whose stored message list already contains a
duplicated id, appendMessage with that id shrinks the list from two messages
to one (the deduplicateCards pass drops the duplicate), so the list is not
left unchanged in length. -/
theorem appendMessage_duplicate_messages_cex :
    (msgM.id ∈ cardDup.messages.map (fun m => m.id)) ∧
    cardDup.messages.length = 2 ∧
    ((appendMessage [cardDup] "d" msgM).map (fun c => c.messages.length) = [1]) := by
  decide

/-- C5 amended: on a state with distinct card ids whose addressed card has a
duplicate-free message list — the invariant the store maintains — appending
a message whose id already occurs in that card leaves the card's message
list unchanged in length and content. -/
theorem appendMessage_existing_id_noop
    (cards : List CardData) (cardId : String) (m : CardMessage) (c : CardData)
    (hnodup : (cards.map (fun x => x.id)).Nodup)
    (hfind : cards.find? (fun x => decide (x.id = cardId)) = some c)
    (hmem : m.id ∈ c.messages.map (fun msg => msg.id))
    (hmsgs : (c.messages.map (fun msg => msg.id)).Nodup) :
    ((appendMessage cards cardId m).find? (fun x => decide (x.id = cardId))).map
      (fun x => x.messages) = some c.messages := by
  have hc_mem : c ∈ cards := List.mem_of_find?_eq_some hfind
  have hc_id : c.id = cardId := by simpa using List.find?_some hfind
  have hmap : cards.map (fun card =>
      if card.id ≠ cardId then card
      else if (card.messages.find? (fun msg => decide (msg.id = m.id))).isSome then card
      else { card with messages := deduplicateMessages (card.messages ++ [m]) }) = cards := by
    conv_rhs => rw [← List.map_id cards]
    apply List.map_congr_left
    intro a ha
    by_cases hxa : a.id = cardId
    · have hac : a = c := List.inj_on_of_nodup_map hnodup ha hc_mem (by rw [hxa, hc_id])
      subst hac
      obtain ⟨msg, hmsg, hmid⟩ := List.mem_map.mp hmem
      have hsome : (a.messages.find? (fun msg => decide (msg.id = m.id))).isSome = true :=
        List.find?_isSome.mpr ⟨msg, hmsg, by simp [hmid]⟩
      simp [hxa, hsome]
    · simp [hxa]
  simp only [appendMessage, hmap, deduplicateCards]
  rw [find?_dedupCardsAux [] _ cardId (by simp)]
  rw [List.find?_map]
  have hpc : ((fun x : CardData => decide (x.id = cardId)) ∘ resetCard) =
      (fun x : CardData => decide (x.id = cardId)) := rfl
  rw [hpc, hfind]
  simp only [Option.map_map, Option.map_some]
  show some (deduplicateMessages c.messages) = some c.messages
  rw [deduplicateMessages_eq_self c.messages hmsgs]

/-- Witness for the amended C5: re-appending the only message of a one-card
project leaves that card's message list untouched. -/
theorem appendMessage_existing_id_noop_witness :
    (([cardE].map (fun x => x.id)).Nodup) ∧
    ([cardE].find? (fun x => decide (x.id = "e")) = some cardE) ∧
    ((appendMessage [cardE] "e" msgM).find? (fun x => decide (x.id = "e"))).map
      (fun x => x.messages) = some cardE.messages :=
  ⟨by decide, by decide,
    appendMessage_existing_id_noop [cardE] "e" msgM cardE (by decide) (by decide)
      (by decide) (by decide)⟩

end Claim5

section Claim6

/-- C6: the depth invariant — depth equals the parent's depth plus one
whenever the parentId resolves to an existing card, and 0 for cards without
a parentId — holds immediately after addCard and after
deleteCardAndDescendants, given that it held before, that card ids are
pairwise distinct and non-empty, and that the freshly generated card id is
fresh (ids are never reused by the allocation scheme). -/
theorem depth_invariant_preserved
    (cards : List CardData) (messages : List CardMessage)
    (parentId : Option String) (newId : String) (cur : Option String) (X : String)
    (hInv : depthInv cards = true)
    (hnodup : (cards.map (fun c => c.id)).Nodup)
    (hfreshPar : ∀ c ∈ cards, c.parentId ≠ some newId)
    (hparg : parentId ≠ some newId)
    (hnz : newId ≠ "")
    (hids : ∀ c ∈ cards, c.id ≠ "") :
    depthInv (addCard cards messages parentId newId).1 = true ∧
    depthInv (deleteCardAndDescendants cards cur X).1 = true := by
  have hP : DepthInvP cards := (depthInv_iff cards).mp hInv
  constructor
  · rw [depthInv_iff]
    cases parentId with
    | none =>
      have hext := depthInvP_append_new cards
        { id := newId, title := "新卡片", messages := messages, position := (0, 100, 0),
          brightness := 1, parentId := none, children := [], depth := -1 + 1 }
        hP (fun c hc => hfreshPar c hc)
        ⟨fun _ => by norm_num, fun pid p hp => by simp at hp⟩
      have hmain := depthInvP_dedup_map _ id (fun c => rfl) (fun c => rfl) (fun c => rfl) hext
      rw [List.map_id] at hmain
      exact hmain
    | some pid =>
      by_cases hpe : pid = ""
      · subst hpe
        have hext := depthInvP_append_new cards
          { id := newId, title := "新卡片", messages := messages, position := (0, 100, 0),
            brightness := 1, parentId := some "", children := [], depth := -1 + 1 }
          hP (fun c hc => hfreshPar c hc)
          ⟨fun hp => by simp at hp, ?_⟩
        · have hmain := depthInvP_dedup_map _ id (fun c => rfl) (fun c => rfl) (fun c => rfl) hext
          rw [List.map_id] at hmain
          exact hmain
        · intro pid2 p hp hf
          have hp2 : pid2 = "" := by simpa using hp.symm
          subst hp2
          have hpmem := List.mem_of_find?_eq_some hf
          have hpid : p.id = "" := by simpa using List.find?_some hf
          rcases List.mem_append.mp hpmem with hcm | hcm
          · exact absurd hpid (hids p hcm)
          · have hpeq := List.mem_singleton.mp hcm
            rw [hpeq] at hpid
            simp at hpid
            exact absurd hpid hnz
      · have hpidne : pid ≠ newId := fun h => hparg (by rw [h])
        cases hfq : cards.find? (fun c => decide (c.id = pid)) with
        | some q =>
          simp only [addCard, if_neg hpe, hfq, deduplicateCards]
          refine depthInvP_dedup_map _ _
            (fun c => by by_cases h : c.id = pid <;> simp [h])
            (fun c => by by_cases h : c.id = pid <;> simp [h])
            (fun c => by by_cases h : c.id = pid <;> simp [h]) ?_
          refine depthInvP_append_new cards _ hP (fun c hc => hfreshPar c hc)
            ⟨fun hp => by simp at hp, ?_⟩
          intro pid2 p hp hf
          have hp2 : pid2 = pid := by simpa using hp.symm
          rw [hp2, List.find?_append, hfq] at hf
          have hqp : q = p := by simpa using hf
          rw [← hqp]
          show jsOrZero q.depth + 1 = q.depth + 1
          rw [jsOrZero_eq]
        | none =>
          simp only [addCard, if_neg hpe, hfq, deduplicateCards]
          refine depthInvP_dedup_map _ _
            (fun c => by by_cases h : c.id = pid <;> simp [h])
            (fun c => by by_cases h : c.id = pid <;> simp [h])
            (fun c => by by_cases h : c.id = pid <;> simp [h]) ?_
          refine depthInvP_append_new cards _ hP (fun c hc => hfreshPar c hc)
            ⟨fun hp => by simp at hp, ?_⟩
          intro pid2 p hp hf
          have hp2 : pid2 = pid := by simpa using hp.symm
          rw [hp2, List.find?_append, hfq] at hf
          simp only [Option.none_or] at hf
          have hpm := List.mem_singleton.mp (List.mem_of_find?_eq_some hf)
          have hpp : p.id = pid := by simpa using List.find?_some hf
          rw [hpm] at hpp
          simp at hpp
          exact absurd hpp.symm hpidne
  · rw [depthInv_iff]
    show DepthInvP ((deleteSurvivors cards X).map (pruneParent (parentOfCard cards X) X))
    exact depthInvP_filter_map cards (pruneParent (parentOfCard cards X) X) _
      (fun c => pruneParent_id _ _ c) (fun c => pruneParent_parentId _ _ c)
      (fun c => pruneParent_depth _ _ c) hnodup hP

/-- Witness for C6 on the three-card chain: adding a child of a and deleting
b both keep the depth invariant. -/
theorem depth_invariant_preserved_witness :
    (depthInv [cardA, cardB, cardC] = true) ∧
    depthInv (addCard [cardA, cardB, cardC] [] (some "a") "new1").1 = true ∧
    depthInv (deleteCardAndDescendants [cardA, cardB, cardC] (some "c") "b").1 = true :=
  ⟨by decide,
    (depth_invariant_preserved [cardA, cardB, cardC] [] (some "a") "new1" (some "c") "b"
      (by decide) (by decide) (by decide) (by decide) (by decide) (by decide)).1,
    (depth_invariant_preserved [cardA, cardB, cardC] [] (some "a") "new1" (some "c") "b"
      (by decide) (by decide) (by decide) (by decide) (by decide) (by decide)).2⟩

end Claim6

section Claim10

/-- Message ids emitted by the keep-first message dedup are pairwise distinct
and avoid the seen set. -/
theorem dedupMessagesAux_nodup (seen : List String) (l : List CardMessage) :
    ((dedupMessagesAux seen l).map (fun m => m.id)).Nodup ∧
      ∀ m ∈ dedupMessagesAux seen l, m.id ∉ seen := by
  induction l generalizing seen with
  | nil => exact ⟨List.nodup_nil, by simp [dedupMessagesAux]⟩
  | cons x rest ih =>
    by_cases hx : x.id ∈ seen
    · simp only [dedupMessagesAux, if_pos hx]
      exact ih seen
    · simp only [dedupMessagesAux, if_neg hx]
      obtain ⟨ihn, ihs⟩ := ih (x.id :: seen)
      constructor
      · rw [List.map_cons, List.nodup_cons]
        refine ⟨?_, ihn⟩
        intro hmem
        obtain ⟨y, hy, hyid⟩ := List.mem_map.mp hmem
        exact ihs y hy (hyid ▸ List.mem_cons_self _ _)
      · intro m hm
        rcases List.mem_cons.mp hm with h | h
        · exact h ▸ hx
        · exact fun hms => ihs m h (List.mem_cons_of_mem _ hms)

/-- deduplicateMessages is idempotent. -/
theorem deduplicateMessages_idem (l : List CardMessage) :
    deduplicateMessages (deduplicateMessages l) = deduplicateMessages l :=
  deduplicateMessages_eq_self _ (dedupMessagesAux_nodup [] l).1

/-- Shape of every card surviving the dedup-then-map pipeline shared by
addCard and appendMessage: position reset, messages deduplicated, id from
the source list. -/
theorem mem_dedup_map_structure (l : List CardData) (f : CardData → CardData)
    (hpos : ∀ c, (f c).position = c.position) (hmsg : ∀ c, (f c).messages = c.messages)
    (hid : ∀ c, (f c).id = c.id) :
    ∀ c ∈ (dedupCardsAux [] (l.map resetCard)).map f,
      c.position = (0, 100, 0) ∧
        ∃ c₀ ∈ l, c.id = c₀.id ∧ c.messages = deduplicateMessages c₀.messages := by
  intro c hc
  obtain ⟨c₁, hc₁, rfl⟩ := List.mem_map.mp hc
  obtain ⟨c₀, hc₀, rfl⟩ := List.mem_map.mp (mem_of_mem_dedupCardsAux _ _ _ hc₁)
  exact ⟨by rw [hpos]; rfl, c₀, hc₀, by rw [hid]; rfl, by rw [hmsg]; rfl⟩

/-- C10: both addCard and appendMessage push the whole card list of the
active project through deduplicateCards, so every card in the result — also
cards unrelated to the targeted one — has its position reset to [0, 100, 0]
and its message list filtered to the first occurrence of each message id. -/
theorem store_ops_frame_effect
    (cards : List CardData) (messages : List CardMessage) (parentId : Option String)
    (newId : String) (cardId : String) (m : CardMessage) :
    (∀ c ∈ (addCard cards messages parentId newId).1,
      c.position = (0, 100, 0) ∧
        ((∃ c₀ ∈ cards, c.id = c₀.id ∧ c.messages = deduplicateMessages c₀.messages) ∨
          (c.id = newId ∧ c.messages = deduplicateMessages messages))) ∧
    (∀ c ∈ appendMessage cards cardId m,
      c.position = (0, 100, 0) ∧
        ∃ c₀ ∈ cards, c.id = c₀.id ∧
          (c.messages = deduplicateMessages c₀.messages ∨
            c.messages = deduplicateMessages (c₀.messages ++ [m]))) := by
  constructor
  · have main : ∀ (nc : CardData) (f : CardData → CardData),
        (∀ c, (f c).position = c.position) → (∀ c, (f c).messages = c.messages) →
        (∀ c, (f c).id = c.id) → nc.id = newId → nc.messages = messages →
        ∀ c ∈ (dedupCardsAux [] ((cards ++ [nc]).map resetCard)).map f,
          c.position = (0, 100, 0) ∧
            ((∃ c₀ ∈ cards, c.id = c₀.id ∧ c.messages = deduplicateMessages c₀.messages) ∨
              (c.id = newId ∧ c.messages = deduplicateMessages messages)) := by
      intro nc f hpos hmsg hid hncid hncmsg c hc
      obtain ⟨hcpos, c₀, hc₀, hcid, hcmsg⟩ :=
        mem_dedup_map_structure (cards ++ [nc]) f hpos hmsg hid c hc
      refine ⟨hcpos, ?_⟩
      rcases List.mem_append.mp hc₀ with hcm | hcm
      · exact Or.inl ⟨c₀, hcm, hcid, hcmsg⟩
      · have he : c₀ = nc := List.mem_singleton.mp hcm
        subst he
        exact Or.inr ⟨by rw [hcid, hncid], by rw [hcmsg, hncmsg]⟩
    cases parentId with
    | none =>
      intro c hc
      refine main
        { id := newId, title := "新卡片", messages := messages, position := (0, 100, 0),
          brightness := 1, parentId := none, children := [], depth := -1 + 1 }
        id (fun c => rfl) (fun c => rfl) (fun c => rfl) rfl rfl c ?_
      rw [List.map_id]
      exact hc
    | some pid =>
      by_cases hpe : pid = ""
      · subst hpe
        intro c hc
        refine main
          { id := newId, title := "新卡片", messages := messages, position := (0, 100, 0),
            brightness := 1, parentId := some "", children := [], depth := -1 + 1 }
          id (fun c => rfl) (fun c => rfl) (fun c => rfl) rfl rfl c ?_
        rw [List.map_id]
        exact hc
      · intro c hc
        have hc2 := hc
        simp only [addCard, if_neg hpe, deduplicateCards] at hc2
        exact main _ _
          (fun c => by by_cases h : c.id = pid <;> simp [h])
          (fun c => by by_cases h : c.id = pid <;> simp [h])
          (fun c => by by_cases h : c.id = pid <;> simp [h]) rfl rfl c hc2
  · intro c hc
    have hc2 : c ∈ (dedupCardsAux []
        ((cards.map (fun card =>
          if card.id ≠ cardId then card
          else if (card.messages.find? (fun msg => decide (msg.id = m.id))).isSome then card
          else { card with
            messages := deduplicateMessages (card.messages ++ [m]) })).map resetCard)).map id := by
      rw [List.map_id]
      exact hc
    obtain ⟨hcpos, c₁, hc₁, hcid, hcmsg⟩ :=
      mem_dedup_map_structure _ id (fun c => rfl) (fun c => rfl) (fun c => rfl) c hc2
    obtain ⟨c₀, hc₀, rfl⟩ := List.mem_map.mp hc₁
    have hgid : ((fun card =>
        if card.id ≠ cardId then card
        else if (card.messages.find? (fun msg => decide (msg.id = m.id))).isSome then card
        else { card with
          messages := deduplicateMessages (card.messages ++ [m]) }) c₀).id = c₀.id := by
      by_cases h1 : c₀.id ≠ cardId
      · simp [h1]
      · by_cases h2 : (c₀.messages.find? (fun msg => decide (msg.id = m.id))).isSome
        · simp [h1, h2]
        · simp [h1, h2]
    have hgmsg : ((fun card =>
        if card.id ≠ cardId then card
        else if (card.messages.find? (fun msg => decide (msg.id = m.id))).isSome then card
        else { card with
          messages := deduplicateMessages (card.messages ++ [m]) }) c₀).messages =
          c₀.messages ∨
        ((fun card =>
        if card.id ≠ cardId then card
        else if (card.messages.find? (fun msg => decide (msg.id = m.id))).isSome then card
        else { card with
          messages := deduplicateMessages (card.messages ++ [m]) }) c₀).messages =
          deduplicateMessages (c₀.messages ++ [m]) := by
      by_cases h1 : c₀.id ≠ cardId
      · exact Or.inl (by simp [h1])
      · by_cases h2 : (c₀.messages.find? (fun msg => decide (msg.id = m.id))).isSome
        · exact Or.inl (by simp [h1, h2])
        · exact Or.inr (by simp [h1, h2])
    refine ⟨hcpos, c₀, hc₀, by rw [hcid, hgid], ?_⟩
    rcases hgmsg with hgm | hgm
    · exact Or.inl (by rw [hcmsg, hgm])
    · refine Or.inr ?_
      rw [hcmsg, hgm]
      exact deduplicateMessages_idem _

end Claim10

section Claim3

/-- Index-wise id agreement on the zip equals prefix of the id sequences,
for a shorter-or-equal first path. -/
theorem zip_ids_iff (s : List CardData) : ∀ l : List CardData, s.length ≤ l.length →
    (((s.zip l).all (fun p => p.1.id == p.2.id)) = true ↔
      (s.map (fun c => c.id)) <+: (l.map (fun c => c.id))) := by
  induction s with
  | nil => intro l _; simp
  | cons a s ih =>
    intro l hle
    cases l with
    | nil => simp at hle
    | cons b l =>
      simp only [List.zip_cons_cons, List.all_cons, Bool.and_eq_true, beq_iff_eq,
        List.map_cons, List.cons_prefix_cons]
      rw [ih l (by simpa using hle)]

/-- The classifier's Bool test agrees with the spec's strict-prefix relation
on the paths' id sequences. -/
theorem isPfx_iff (s l : List CardData) :
    isPfx s l = true ↔
      SpecStrictPfx (s.map (fun c => c.id)) (l.map (fun c => c.id)) := by
  rw [isPfx, SpecStrictPfx, Bool.and_eq_true, decide_eq_true_eq]
  constructor
  · rintro ⟨h1, h2⟩
    exact ⟨(zip_ids_iff s l (le_of_lt h1)).mp h2, by simpa using h1⟩
  · rintro ⟨h1, h2⟩
    have h2l : s.length < l.length := by simpa using h2
    exact ⟨h2l, (zip_ids_iff s l (le_of_lt h2l)).mpr h1⟩

/-- A strict prefix in one direction rules the other direction out, by the
length comparison inside the classifier's test. -/
theorem isPfx_asymm (s l : List CardData) (h : isPfx s l = true) : isPfx l s = false := by
  have h1 : s.length < l.length := by
    rw [isPfx, Bool.and_eq_true, decide_eq_true_eq] at h
    exact h.1
  rw [isPfx]
  have h2 : decide (l.length < s.length) = false := by
    simp
    omega
  simp [h2]

/-- C3: with no pending create or delete hint, the classifier returns
SWITCH_TO_CHILD exactly when the old id path is a strict prefix of the new
one, SWITCH_TO_PARENT exactly when the new id path is a strict prefix of the
old one, and the two relations can never hold together. -/
theorem classifier_prefix_characterisation (oldPath newPath : List CardData) :
    (classifyNavigation none oldPath newPath = "SWITCH_TO_CHILD" ↔
      SpecStrictPfx (oldPath.map (fun c => c.id)) (newPath.map (fun c => c.id))) ∧
    (classifyNavigation none oldPath newPath = "SWITCH_TO_PARENT" ↔
      SpecStrictPfx (newPath.map (fun c => c.id)) (oldPath.map (fun c => c.id))) ∧
    ¬(SpecStrictPfx (oldPath.map (fun c => c.id)) (newPath.map (fun c => c.id)) ∧
      SpecStrictPfx (newPath.map (fun c => c.id)) (oldPath.map (fun c => c.id))) := by
  refine ⟨?_, ?_, ?_⟩
  · rw [← isPfx_iff]
    unfold classifyNavigation
    by_cases h3 : isPfx oldPath newPath = true
    · simp [h3]
    · by_cases h4 : isPfx newPath oldPath = true
      · simp [h3, h4]
      · by_cases h5 : oldPath.length > 0 ∧ newPath.length > 0 ∧
            oldPath.getLast?.bind (fun c => c.parentId) =
              newPath.getLast?.bind (fun c => c.parentId)
        · simp [h3, h4, h5]
        · simp [h3, h4, h5]
  · rw [← isPfx_iff]
    unfold classifyNavigation
    by_cases h3 : isPfx oldPath newPath = true
    · have h4 := isPfx_asymm oldPath newPath h3
      simp [h3, h4]
    · by_cases h4 : isPfx newPath oldPath = true
      · simp [h3, h4]
      · by_cases h5 : oldPath.length > 0 ∧ newPath.length > 0 ∧
            oldPath.getLast?.bind (fun c => c.parentId) =
              newPath.getLast?.bind (fun c => c.parentId)
        · simp [h3, h4, h5]
        · simp [h3, h4, h5]
  · rintro ⟨⟨_, hl1⟩, ⟨_, hl2⟩⟩
    omega

end Claim3

section Claim7

/-- C7: the path layout returns scale 1 and opacity 1 at depth 0; for depths
1 to 24 with a non-degenerate viewport it returns scale max(0, 1 - 0.04 d),
blur 0.5 d, brightness max(0.6, 1 - 0.05 d) and opacity 0.9; any depth above
24, and any depth of at least 1 with a degenerate available height, gets the
collapsed transform with scale 0 and opacity 0. -/
theorem calculateCardPosition_spec
    (pi : ℚ) (cos sin : ℚ → ℚ) (depth : Int) (centerX centerY availableHeight : ℚ) :
    (depth = 0 →
      (calculateCardPosition pi cos sin depth centerX centerY availableHeight).scale = 1 ∧
      (calculateCardPosition pi cos sin depth centerX centerY availableHeight).opacity = 1) ∧
    (1 ≤ depth → depth ≤ 24 →
      ¬(availableHeight ≤ centerY ∨ availableHeight < 100) →
      (calculateCardPosition pi cos sin depth centerX centerY availableHeight).scale =
          max 0 (1 - (depth : ℚ) * (4/100)) ∧
      (calculateCardPosition pi cos sin depth centerX centerY availableHeight).blur =
          (depth : ℚ) * (1/2) ∧
      (calculateCardPosition pi cos sin depth centerX centerY availableHeight).brightness =
          max (6/10) (1 - (depth : ℚ) * (5/100)) ∧
      (calculateCardPosition pi cos sin depth centerX centerY availableHeight).opacity =
          9/10) ∧
    (depth > 24 →
      (calculateCardPosition pi cos sin depth centerX centerY availableHeight).scale = 0 ∧
      (calculateCardPosition pi cos sin depth centerX centerY availableHeight).opacity = 0) ∧
    (1 ≤ depth → depth ≤ 24 →
      (availableHeight ≤ centerY ∨ availableHeight < 100) →
      (calculateCardPosition pi cos sin depth centerX centerY availableHeight).scale = 0 ∧
      (calculateCardPosition pi cos sin depth centerX centerY availableHeight).opacity = 0) := by
  refine ⟨?_, ?_, ?_, ?_⟩
  · intro h0
    subst h0
    simp [calculateCardPosition]
  · intro h1 h24 hdeg
    have hne : depth ≠ 0 := by omega
    have hle : ¬(depth > 24) := by omega
    simp [calculateCardPosition, hne, hle, hdeg]
  · intro hgt
    have hne : depth ≠ 0 := by omega
    simp [calculateCardPosition, hne, hgt]
  · intro h1 h24 hdeg
    have hne : depth ≠ 0 := by omega
    have hle : ¬(depth > 24) := by omega
    simp [calculateCardPosition, hne, hle, hdeg]

/-- Witness for C7 at depth 3 in a 500-pixel-high viewport centred at 100. -/
theorem calculateCardPosition_spec_witness :
    ((1 : Int) ≤ 3) ∧ ((3 : Int) ≤ 24) ∧
    ¬((500 : ℚ) ≤ 100 ∨ (500 : ℚ) < 100) ∧
    (calculateCardPosition 0 (fun _ => 0) (fun _ => 0) 3 0 100 500).scale =
      max 0 (1 - (3 : ℚ) * (4/100)) :=
  ⟨by decide, by decide, by decide,
    ((calculateCardPosition_spec 0 (fun _ => 0) (fun _ => 0) 3 0 100 500).2.1
      (by decide) (by decide) (by decide)).1⟩

end Claim7

section Claim8

/-- The accumulating write loop over the layers equals a flat map, given
that empty layers contribute nothing. -/
theorem foldl_writes_eq (L : List (Nat × List CardData))
    (g : Nat × List CardData → List (String × ℚ × ℚ))
    (hg : ∀ p, p.2.length = 0 → g p = []) :
    ∀ init : List (String × ℚ × ℚ),
      L.foldl (fun acc p => if p.2.length = 0 then acc else acc ++ g p) init =
        init ++ L.flatMap g := by
  induction L with
  | nil => intro init; simp
  | cons p L ih =>
    intro init
    by_cases hp : p.2.length = 0
    · simp only [List.foldl_cons, if_pos hp, List.flatMap_cons, hg p hp, List.nil_append]
      exact ih init
    · simp only [List.foldl_cons, if_neg hp, List.flatMap_cons]
      rw [ih (init ++ g p), List.append_assoc]

/-- C8: for a positive container width W, the vertical minimap layout uses
the spacing unit (W - 80) / 6 (so seven nodes span the width), puts node i
of a layer of n nodes at (svgWidth - (n - 1) unit) / 2 + i unit on the
cross-axis, and puts layer d at svgHeight - (d * 80 + H) on the layer axis,
i.e. successive layers advance by a fixed 80-pixel step. -/
theorem calculateTreeLayout_spec (fuel : Nat) (cards : List CardData)
    (H W : ℚ) (hW : 0 < W) :
    (calculateTreeLayout fuel cards H W).positionWrites =
      ((buildAllLayers fuel cards).layers.enum).flatMap (fun p =>
        p.2.enum.map (fun q =>
          (q.2.id,
            ((calculateTreeLayout fuel cards H W).svgWidth -
                ((p.2.length : ℚ) - 1) * ((W - 80) / 6)) / 2 +
              (q.1 : ℚ) * ((W - 80) / 6),
            (calculateTreeLayout fuel cards H W).svgHeight -
              ((p.1 : ℚ) * 80 + H)))) := by
  have hu : ((if W > 0 then W else 300) - 40 * 2) / (7 - 1) = (W - 80) / 6 := by
    rw [if_pos hW]
    norm_num
  simp only [calculateTreeLayout, hu]
  rw [foldl_writes_eq _ _ (fun p hp => by
    cases hq : p.2 with
    | nil => simp
    | cons a l => rw [hq] at hp; simp at hp)]
  simp

example :
    (buildAllLayers 10 [cardA, cardB, cardC]).layers.map
      (fun layer => layer.map (fun c => c.id)) = [["a"], ["b"], ["c"]] := by decide

/-- Witness for C8 on the three-card chain in a 380-wide container. -/
theorem calculateTreeLayout_spec_witness :
    ((0 : ℚ) < 380) ∧
    (calculateTreeLayout 10 [cardA, cardB, cardC] 400 380).positionWrites =
      ((buildAllLayers 10 [cardA, cardB, cardC]).layers.enum).flatMap (fun p =>
        p.2.enum.map (fun q =>
          (q.2.id,
            ((calculateTreeLayout 10 [cardA, cardB, cardC] 400 380).svgWidth -
                ((p.2.length : ℚ) - 1) * ((380 - 80) / 6)) / 2 +
              (q.1 : ℚ) * ((380 - 80) / 6),
            (calculateTreeLayout 10 [cardA, cardB, cardC] 400 380).svgHeight -
              ((p.1 : ℚ) * 80 + 400)))) :=
  ⟨by decide, calculateTreeLayout_spec 10 [cardA, cardB, cardC] 400 380 (by decide)⟩

end Claim8

section Claim9

/-- C9 counterexample: a manual scroll at time 0 leaves the 3-second window
pending, yet a focus change at time 1000 — well inside the window — still
performs an auto-center scroll write (logged with the window flag true), so
auto-center writes do occur while the manual-scroll suspension is supposed
to be active. -/
theorem minimap_scroll_suspension_cex :
    (scrollRun 600 scrollInit
        [ScrollEvent.scrollEvt 0, ScrollEvent.focusChange 1000 (some 800)]).writeLog =
      [(1000, true)] := by decide

/-- C9 amended: scroll events arriving during the auto-scroll window are
ignored; a manual scroll otherwise (re)schedules the idle re-center 3
seconds later; the idle timeout firing at its scheduled time clears the
window and re-centers on the current focus; and a focus change performs an
auto-center write immediately whether or not the window is pending — manual
scrolling never suspends focus-driven auto-centering. -/
theorem minimap_scroll_behaviour (h : ℚ) (s : ScrollSt) (t : Nat) (y : ℚ) :
    (s.isAutoScrolling = true → scrollStep h s (ScrollEvent.scrollEvt t) = s) ∧
    (s.isAutoScrolling = false →
      scrollStep h s (ScrollEvent.scrollEvt t) = { s with pending3 := some (t + 3000) }) ∧
    (s.pending3 = some t → s.focusPos = some y →
      (scrollStep h s (ScrollEvent.idleFire t)).pending3 = none ∧
      (scrollStep h s (ScrollEvent.idleFire t)).scrollTop = jsMax 0 (y - h / 2) ∧
      (scrollStep h s (ScrollEvent.idleFire t)).writeLog = s.writeLog ++ [(t, false)]) ∧
    ((scrollStep h s (ScrollEvent.focusChange t (some y))).scrollTop =
        jsMax 0 (y - h / 2) ∧
      (scrollStep h s (ScrollEvent.focusChange t (some y))).writeLog =
        s.writeLog ++ [(t, s.pending3.isSome)]) := by
  refine ⟨?_, ?_, ?_, ?_⟩
  · intro hauto
    simp [scrollStep, hauto]
  · intro hauto
    simp [scrollStep, hauto]
  · intro hp hf
    simp [scrollStep, hp, autoCenterView, hf]
  · simp [scrollStep, autoCenterView]

/-- Witness for the amended C9: with the window pending and the focus at
800, the idle timeout firing at its scheduled time 3000 clears the window
and logs a re-centering write. -/
theorem minimap_scroll_behaviour_witness :
    (sPending.pending3 = some 3000) ∧ (sPending.focusPos = some 800) ∧
    (scrollStep 600 sPending (ScrollEvent.idleFire 3000)).pending3 = none ∧
    (scrollStep 600 sPending (ScrollEvent.idleFire 3000)).scrollTop =
      jsMax 0 (800 - 600 / 2) ∧
    (scrollStep 600 sPending (ScrollEvent.idleFire 3000)).writeLog =
      sPending.writeLog ++ [(3000, false)] :=
  ⟨by decide, by decide,
    (minimap_scroll_behaviour 600 sPending 3000 800).2.2.1 (by decide) (by decide)⟩

end Claim9
